import Mathlib

/-!
Verification of the LPA-Program library (`lpaprogram.py`).

The embedding models the numeric core of the library over exact arithmetic:
Python/numpy floating-point values become rationals (`ℚ`), numpy integer
arrays become lists of `ℤ`/`ℕ`, and the numpy conversions that matter are
modelled explicitly: `numpy.round` is round-half-to-even, and
`astype(numpy.uint16)` reduces the (integral) value modulo 2^16.
Fallible operations return `Except String`, mirroring the `ValueError` /
`NotImplementedError` raises of the source.
-/

/-- Floor of a rational number, in executable form. -/
def ratFloor (q : ℚ) : ℤ := q.num / (q.den : ℤ)

theorem ratFloor_eq (q : ℚ) : ratFloor q = ⌊q⌋ := Rat.floor_def.symm

/-- Round-half-to-even, the rounding rule used by `numpy.round`. -/
def roundHalfEven (q : ℚ) : ℤ :=
  if q - (ratFloor q : ℚ) < 1/2 then ratFloor q
  else if 1/2 < q - (ratFloor q : ℚ) then ratFloor q + 1
  else if ratFloor q % 2 = 0 then ratFloor q else ratFloor q + 1

/-- The effect of `astype(numpy.uint16)` on an integral value:
reduction modulo 2^16. -/
def castU16 (z : ℤ) : ℤ := z % 65536

/-- `roundHalfEven` is the identity on integers. -/
theorem roundHalfEven_intCast (z : ℤ) : roundHalfEven (z : ℚ) = z := by
  unfold roundHalfEven
  rw [ratFloor_eq, Int.floor_intCast, sub_self]
  norm_num

namespace LEDSet

/-- One row of an LED set's calibration table (`spectral_data`): the dot
correction, grayscale calibration, and intensity measured for one well. -/
structure CalibWell where
  mdc : ℚ
  mgcal : ℚ
  mI : ℚ
  deriving DecidableEq

/-- Per-well computation of `LEDSet.get_grayscale`:
`gs = 4095. * (intensity/measured_intensity) * (measured_dc/dc) *
(measured_gcal/gcal)`, rounded by `numpy.round` and converted by
`astype(numpy.uint16)`. -/
def gsOfWell (c : CalibWell) (intensity dc gcal : ℚ) : ℤ :=
  castU16 (roundHalfEven (4095 * (intensity / c.mI) * (c.mdc / dc) * (c.mgcal / gcal)))

/-- Per-well computation of `LEDSet.get_intensity`:
`intensity = measured_intensity * (dc/measured_dc) * (gcal/measured_gcal) *
(gs/4095.)`. -/
def intensityOfWell (c : CalibWell) (gs dc gcal : ℚ) : ℚ :=
  c.mI * (dc / c.mdc) * (gcal / c.mgcal) * (gs / 4095)

/-- `LEDSet.get_intensity` over the selected wells (lists are indexed by
well position, all of the same length in the callers). -/
def get_intensity (calib : List CalibWell) (gs dc gcal : List ℚ) : List ℚ :=
  List.zipWith (fun c t => intensityOfWell c t.1 t.2.1 t.2.2)
    calib (gs.zip (dc.zip gcal))

/-- `LEDSet.get_grayscale` over the selected wells: computes the per-well
rounded grayscale values, then raises `ValueError` if any of them (after the
uint16 conversion) exceeds 4095. -/
def get_grayscale (calib : List CalibWell) (intensity dc gcal : List ℚ) :
    Except String (List ℤ) :=
  let gs := List.zipWith (fun c t => gsOfWell c t.1 t.2.1 t.2.2)
    calib (intensity.zip (dc.zip gcal))
  if gs.any (fun z => 4095 < z) then
    .error "not possible to generate requested intensity with provided dc value. "
  else
    .ok gs

/-- `LEDSet.discretize_intensity`: convert to grayscale, then back to
intensity. -/
def discretize_intensity (calib : List CalibWell) (intensity dc gcal : List ℚ) :
    Except String (List ℚ) :=
  match get_grayscale calib intensity dc gcal with
  | .error e => .error e
  | .ok gs => .ok (get_intensity calib (gs.map (fun z => (z : ℚ))) dc gcal)

/-- Per-well computation of `LEDSet.optimize_dc`:
`dc = ceil(measured_dc * (intensity/measured_intensity) *
(measured_gcal/gcal))`, converted by `astype(numpy.uint16)`. -/
def dcOfWell (c : CalibWell) (intensity gcal : ℚ) : ℤ :=
  castU16 (-ratFloor (-(c.mdc * (intensity / c.mI) * (c.mgcal / gcal))))

/-- The ceiling inside `dcOfWell` agrees with `⌈⌉`. -/
theorem dcOfWell_eq_ceil (c : CalibWell) (intensity gcal : ℚ) :
    dcOfWell c intensity gcal =
      castU16 ⌈c.mdc * (intensity / c.mI) * (c.mgcal / gcal)⌉ := by
  unfold dcOfWell
  rw [ratFloor_eq, Int.floor_neg, neg_neg]

/-- `LEDSet.optimize_dc` over the selected wells: per-well ceiling values,
floored at `min_dc` by `numpy.maximum`, optionally made uniform, and checked
against the hardware maximum 63. -/
def optimize_dc (calib : List CalibWell) (intensity gcal : List ℚ)
    (min_dc : ℤ) (uniform : Bool) : Except String (List ℤ) :=
  let dc1 := List.zipWith (fun c t => max (dcOfWell c t.1 t.2) min_dc)
    calib (intensity.zip gcal)
  let dc2 := if uniform then dc1.map (fun _ => dc1.foldl max (dc1.headD 0)) else dc1
  if dc2.any (fun z => 63 < z) then
    .error "not possible to generate requested intensity"
  else
    .ok dc2

/-- Evaluation of `gsOfWell` for the unit calibration row `⟨1, 1, 1⟩` at
dc = 1 and gcal = 1: the wrapped value of `round(4095 * intensity)`. -/
theorem gsOfWell_unit (i : ℚ) (z : ℤ) (h : 4095 * i = (z : ℚ)) :
    gsOfWell ⟨1, 1, 1⟩ i 1 1 = z % 65536 := by
  unfold gsOfWell castU16
  rw [show 4095 * (i / (1:ℚ)) * ((1:ℚ) / 1) * ((1:ℚ) / 1) = 4095 * i by ring, h,
    roundHalfEven_intCast]

end LEDSet

/-- Claim C1: evaluation of `LEDSet.get_grayscale` at a single calibrated
well (measured dc, gcal and intensity all 1) with requested intensity 65536
at dc = 1, gcal = 1.  The computed grayscale value is
`round(4095 * 65536) = 268369920`, which exceeds 4095, so the claim (and the
function's own docstring) require the call to fail; but the value is
converted to uint16 before the range check, wraps to 0, and the call
succeeds, returning grayscale 0 for the well. -/
theorem LEDSet.get_grayscale_uint16_wrap :
    LEDSet.get_grayscale [⟨1, 1, 1⟩] [65536] [1] [1] = Except.ok [0] ∧
    roundHalfEven (4095 * ((65536 : ℚ) / 1) * (1 / 1) * (1 / 1)) = 268369920 ∧
    (4095 : ℤ) < 268369920 := by
  have h1 : LEDSet.gsOfWell ⟨1, 1, 1⟩ 65536 1 1 = 0 := by
    rw [LEDSet.gsOfWell_unit 65536 268369920 (by norm_num)]
    decide
  refine ⟨?_, ?_, by decide⟩
  · unfold LEDSet.get_grayscale
    simp [h1]
  · rw [show 4095 * ((65536 : ℚ) / 1) * (1 / 1) * (1 / 1) =
      (((268369920 : ℤ) : ℚ)) by norm_num, roundHalfEven_intCast]

/-! ## The LPF binary codec (`LPF.save` / `LPF.load`) -/

/-- Little-endian encoding of a 32-bit word (`struct.pack` with format
`<I`). -/
def u32le (v : Nat) : List Nat :=
  [v % 256, v / 256 % 256, v / 65536 % 256, v / 16777216 % 256]

/-- Little-endian encoding of a 16-bit word (one element of a numpy
`<u2` array written by `tofile`). -/
def u16le (v : Nat) : List Nat := [v % 256, v / 256 % 256]

/-- Decoding of a byte stream as a sequence of little-endian 16-bit words
(the numpy `<u2` memmap view). -/
def u16leParse : List Nat → List Nat
  | b0 :: b1 :: rest => (b0 + 256 * b1) :: u16leParse rest
  | _ => []

/-- Reading a little-endian 32-bit word at a byte offset
(`struct.unpack` with format `<I`). -/
def readU32 (bs : List Nat) (off : Nat) : Nat :=
  bs.getD off 0 + 256 * bs.getD (off + 1) 0 + 65536 * bs.getD (off + 2) 0 +
    16777216 * bs.getD (off + 3) 0

/-- The transformation `LPF.save` applies to one grayscale value before
writing it: `astype(numpy.uint16)` (reduction mod 2^16) followed by the
`gs[gs > 4095] = 4095` clamp. -/
def satU16 (v : Nat) : Nat := if 4095 < v % 65536 then 4095 else v % 65536

/-- numpy `reshape((n_steps, n_channels))` of a flat list. -/
def reshapeRows : Nat → Nat → List Nat → List (List Nat)
  | 0, _, _ => []
  | ns + 1, nc, xs => xs.take nc :: reshapeRows ns nc (xs.drop nc)

namespace LPF

/-- The fields of an `LPF` object: header data and the grayscale array
(one row per time step). -/
structure Data where
  file_version : Nat
  n_channels : Nat
  step_size : Nat
  n_steps : Nat
  grayscale : List (List Nat)
  deriving DecidableEq

/-- `LPF.save`: 16-byte header (version, channels, step size, steps), 16
reserved zero bytes, then the grayscale values as little-endian uint16
words, each value cast to uint16 and clamped at 4095.  `struct.pack`
fails for a field that does not fit in 32 bits, and a version other
than 1 raises `NotImplementedError`. -/
def save (d : Data) : Except String (List Nat) :=
  if 4294967296 ≤ d.file_version then .error "argument out of range"
  else if d.file_version = 1 then
    if 4294967296 ≤ d.n_channels then .error "argument out of range"
    else if 4294967296 ≤ d.step_size then .error "argument out of range"
    else if 4294967296 ≤ d.n_steps then .error "argument out of range"
    else .ok (u32le d.file_version ++ (u32le d.n_channels ++ (u32le d.step_size ++
      (u32le d.n_steps ++ (List.replicate 16 0 ++
        ((d.grayscale.flatten.map satU16).map u16le).flatten)))))
  else .error "LPF file version not recognized"

/-- `LPF.load`: read the version word; for version 1 read the three other
header words, then view the bytes from offset 32 as
`n_channels * n_steps` little-endian uint16 words (failing like
`numpy.memmap` if the file is too short) and reshape them to
`(n_steps, n_channels)`.  Bytes 16 to 31 are never read. -/
def load (bs : List Nat) : Except String Data :=
  if bs.length < 4 then .error "unexpected end of file"
  else if readU32 bs 0 = 1 then
    if bs.length < 16 then .error "unexpected end of file"
    else if bs.length < 32 + 2 * (readU32 bs 4 * readU32 bs 12) then
      .error "mmap length is greater than file size"
    else .ok ⟨readU32 bs 0, readU32 bs 4, readU32 bs 8, readU32 bs 12,
      reshapeRows (readU32 bs 12) (readU32 bs 4)
        ((u16leParse (bs.drop 32)).take (readU32 bs 4 * readU32 bs 12))⟩
  else .error "LPF file version not recognized"

end LPF

theorem readU32_header_0 (v1 v2 v3 v4 : Nat) (p : List Nat) (h1 : v1 < 4294967296) :
    readU32 (u32le v1 ++ (u32le v2 ++ (u32le v3 ++ (u32le v4 ++
      (List.replicate 16 0 ++ p))))) 0 = v1 := by
  show v1 % 256 + 256 * (v1 / 256 % 256) + 65536 * (v1 / 65536 % 256) +
    16777216 * (v1 / 16777216 % 256) = v1
  omega

theorem readU32_header_4 (v1 v2 v3 v4 : Nat) (p : List Nat) (h2 : v2 < 4294967296) :
    readU32 (u32le v1 ++ (u32le v2 ++ (u32le v3 ++ (u32le v4 ++
      (List.replicate 16 0 ++ p))))) 4 = v2 := by
  show v2 % 256 + 256 * (v2 / 256 % 256) + 65536 * (v2 / 65536 % 256) +
    16777216 * (v2 / 16777216 % 256) = v2
  omega

theorem readU32_header_8 (v1 v2 v3 v4 : Nat) (p : List Nat) (h3 : v3 < 4294967296) :
    readU32 (u32le v1 ++ (u32le v2 ++ (u32le v3 ++ (u32le v4 ++
      (List.replicate 16 0 ++ p))))) 8 = v3 := by
  show v3 % 256 + 256 * (v3 / 256 % 256) + 65536 * (v3 / 65536 % 256) +
    16777216 * (v3 / 16777216 % 256) = v3
  omega

theorem readU32_header_12 (v1 v2 v3 v4 : Nat) (p : List Nat) (h4 : v4 < 4294967296) :
    readU32 (u32le v1 ++ (u32le v2 ++ (u32le v3 ++ (u32le v4 ++
      (List.replicate 16 0 ++ p))))) 12 = v4 := by
  show v4 % 256 + 256 * (v4 / 256 % 256) + 65536 * (v4 / 65536 % 256) +
    16777216 * (v4 / 16777216 % 256) = v4
  omega

theorem u16leParse_flatten (vals : List Nat) :
    u16leParse ((vals.map u16le).flatten) = vals.map (fun v => v % 65536) := by
  induction vals with
  | nil => rfl
  | cons v rest ih =>
    show (v % 256 + 256 * (v / 256 % 256)) :: u16leParse ((rest.map u16le).flatten) =
      (v % 65536) :: rest.map (fun v => v % 65536)
    rw [ih]
    congr 1
    omega

theorem u16le_flatten_length (vals : List Nat) :
    ((vals.map u16le).flatten).length = 2 * vals.length := by
  induction vals with
  | nil => rfl
  | cons v rest ih =>
    show (((rest.map u16le).flatten).length + 2) = 2 * (rest.length + 1)
    omega

theorem flatten_length_uniform (gs : List (List Nat)) (nc : Nat)
    (h : ∀ r ∈ gs, r.length = nc) : gs.flatten.length = gs.length * nc := by
  induction gs with
  | nil => simp
  | cons r rest ih =>
    have hr : r.length = nc := h r (by simp)
    have ht : rest.flatten.length = rest.length * nc :=
      ih (fun r hr => h r (List.mem_cons_of_mem _ hr))
    simp only [List.flatten_cons, List.length_append, List.length_cons, hr, ht]
    ring

theorem reshapeRows_flatten (gs : List (List Nat)) (nc : Nat)
    (h : ∀ r ∈ gs, r.length = nc) :
    reshapeRows gs.length nc gs.flatten = gs := by
  induction gs with
  | nil => rfl
  | cons r rest ih =>
    have hr : r.length = nc := h r (by simp)
    simp only [List.flatten_cons, List.length_cons, reshapeRows]
    rw [← hr, List.take_left, List.drop_left, hr,
      ih (fun r hr => h r (List.mem_cons_of_mem _ hr))]

theorem map_satU16_id (vals : List Nat) (h : ∀ v ∈ vals, v ≤ 4095) :
    vals.map satU16 = vals := by
  induction vals with
  | nil => rfl
  | cons v rest ih =>
    have hv : v ≤ 4095 := h v (by simp)
    have h1 : v % 65536 = v := Nat.mod_eq_of_lt (by omega)
    simp only [List.map_cons, satU16, h1, if_neg (by omega : ¬ 4095 < v)]
    rw [ih (fun v hv => h v (List.mem_cons_of_mem _ hv))]

theorem satU16_lt (v : Nat) : satU16 v < 65536 := by
  unfold satU16
  split
  · omega
  · exact Nat.mod_lt _ (by omega)

theorem except_map_ok {α β ε : Type} (f : α → β) (x : α) :
    Except.map f (Except.ok x : Except ε α) = Except.ok (f x) := rfl

theorem drop32_header (v1 v2 v3 v4 : Nat) (p : List Nat) :
    (u32le v1 ++ (u32le v2 ++ (u32le v3 ++ (u32le v4 ++
      (List.replicate 16 0 ++ p))))).drop 32 = p := rfl

theorem map_mod65536_id (vals : List Nat) (h : ∀ v ∈ vals, v < 65536) :
    vals.map (fun v => v % 65536) = vals := by
  induction vals with
  | nil => rfl
  | cons v rest ih =>
    have hv : v % 65536 = v := Nat.mod_eq_of_lt (h v (by simp))
    simp only [List.map_cons, hv]
    rw [ih (fun v hv => h v (List.mem_cons_of_mem _ hv))]

theorem LPF.load_save_bytes (nc ss ns : Nat) (p : List Nat)
    (h2 : nc < 4294967296) (h3 : ss < 4294967296) (h4 : ns < 4294967296)
    (hp : 2 * (nc * ns) ≤ p.length) :
    LPF.load (u32le 1 ++ (u32le nc ++ (u32le ss ++ (u32le ns ++
      (List.replicate 16 0 ++ p))))) =
    Except.ok ⟨1, nc, ss, ns, reshapeRows ns nc ((u16leParse p).take (nc * ns))⟩ := by
  have hlen : (u32le 1 ++ (u32le nc ++ (u32le ss ++ (u32le ns ++
      (List.replicate 16 0 ++ p))))).length = p.length + 32 := rfl
  have hdrop : (u32le 1 ++ (u32le nc ++ (u32le ss ++ (u32le ns ++
      (List.replicate 16 0 ++ p))))).drop 32 = p := rfl
  have hr0 := readU32_header_0 1 nc ss ns p (by norm_num)
  have hr4 := readU32_header_4 1 nc ss ns p h2
  have hr8 := readU32_header_8 1 nc ss ns p h3
  have hr12 := readU32_header_12 1 nc ss ns p h4
  unfold LPF.load
  rw [hr0, hr4, hr8, hr12, hlen, hdrop,
    if_neg (by omega), if_pos rfl, if_neg (by omega), if_neg (by omega)]

/-- Claim C2: for a version-1 `LPF` with 32-bit header fields and a
grayscale array of shape `(n_steps, n_channels)` whose values all lie in
[0, 4095], `save` followed by `load` reproduces the header fields and the
grayscale array exactly. -/
theorem LPF.save_load_roundtrip (d : LPF.Data) (hv : d.file_version = 1)
    (h2 : d.n_channels < 4294967296) (h3 : d.step_size < 4294967296)
    (h4 : d.n_steps < 4294967296)
    (hrows : d.grayscale.length = d.n_steps)
    (hcols : ∀ r ∈ d.grayscale, r.length = d.n_channels)
    (hvals : ∀ r ∈ d.grayscale, ∀ v ∈ r, v ≤ 4095) :
    (LPF.save d).bind LPF.load = Except.ok d := by
  have hflat : ∀ v ∈ d.grayscale.flatten, v ≤ 4095 := by
    intro v hvmem
    rw [List.mem_flatten] at hvmem
    obtain ⟨r, hr, hvr⟩ := hvmem
    exact hvals r hr v hvr
  have hsat : d.grayscale.flatten.map satU16 = d.grayscale.flatten :=
    map_satU16_id _ hflat
  have hflen : d.grayscale.flatten.length = d.n_steps * d.n_channels := by
    rw [flatten_length_uniform d.grayscale d.n_channels hcols, hrows]
  have hplen : (((d.grayscale.flatten).map u16le).flatten).length =
      2 * (d.n_channels * d.n_steps) := by
    rw [u16le_flatten_length, hflen]
    ring
  unfold LPF.save
  rw [hv, if_neg (by omega), if_pos rfl, if_neg (by omega), if_neg (by omega),
    if_neg (by omega), hsat]
  show LPF.load (u32le 1 ++ (u32le d.n_channels ++ (u32le d.step_size ++
    (u32le d.n_steps ++ (List.replicate 16 0 ++
      ((d.grayscale.flatten).map u16le).flatten))))) = Except.ok d
  rw [LPF.load_save_bytes d.n_channels d.step_size d.n_steps _ h2 h3 h4
    (by omega)]
  have hparse : u16leParse ((d.grayscale.flatten.map u16le).flatten) =
      d.grayscale.flatten := by
    rw [u16leParse_flatten]
    exact map_mod65536_id _ (fun v hvm => by have := hflat v hvm; omega)
  rw [hparse, List.take_of_length_le (by rw [hflen, Nat.mul_comm])]
  conv_rhs => rw [show d = (⟨d.file_version, d.n_channels, d.step_size,
    d.n_steps, d.grayscale⟩ : LPF.Data) from rfl, hv]
  simp only [Except.ok.injEq, LPF.Data.mk.injEq, true_and]
  rw [← hrows]
  exact reshapeRows_flatten d.grayscale d.n_channels hcols

/-- A concrete 2-step, 2-channel program used to witness the round-trip. -/
def LPF.roundtripExample : LPF.Data := ⟨1, 2, 1000, 2, [[1, 2], [3, 4]]⟩

/-- Witness for C2: a concrete 2-step, 2-channel program round-trips. -/
theorem LPF.save_load_roundtrip_witness :
    LPF.roundtripExample.file_version = 1 ∧
    (LPF.save LPF.roundtripExample).bind LPF.load =
      Except.ok LPF.roundtripExample :=
  ⟨rfl, LPF.save_load_roundtrip LPF.roundtripExample rfl
    (by decide) (by decide) (by decide) rfl (by decide) (by decide)⟩

/-- Counterexample for C3: saving the grayscale value 65536 (> 4095) stores
the payload word 0, not 4095 --- `astype(numpy.uint16)` wraps the value
modulo 2^16 before the saturation clamp is applied. -/
theorem LPF.save_wraps_at_65536 :
    (LPF.save ⟨1, 1, 1000, 1, [[65536]]⟩).map
      (fun bs => u16leParse (bs.drop 32)) = Except.ok [0] ∧
    ¬ (LPF.save ⟨1, 1, 1000, 1, [[65536]]⟩).map
      (fun bs => u16leParse (bs.drop 32)) = Except.ok [4095] := by
  constructor
  · rfl
  · intro h
    rw [show (LPF.save ⟨1, 1, 1000, 1, [[65536]]⟩).map
      (fun bs => u16leParse (bs.drop 32)) = Except.ok [0] from rfl] at h
    simp at h

/-- Claim C3 (amended): `save` never raises for out-of-range grayscale
values; every value is first reduced modulo 2^16 and then clamped at 4095,
so values in (4095, 65535] are stored as exactly 4095, while values at or
above 65536 wrap modulo 2^16 and may be stored below 4095. -/
theorem LPF.save_payload_mod_clamp (d : LPF.Data) (hv : d.file_version = 1)
    (h2 : d.n_channels < 4294967296) (h3 : d.step_size < 4294967296)
    (h4 : d.n_steps < 4294967296) :
    (LPF.save d).map (fun bs => u16leParse (bs.drop 32)) =
      Except.ok (d.grayscale.flatten.map satU16) ∧
    ∀ v : Nat, 4095 < v → v < 65536 → satU16 v = 4095 := by
  constructor
  · unfold LPF.save
    rw [hv, if_neg (by omega), if_pos rfl, if_neg (by omega), if_neg (by omega),
      if_neg (by omega), except_map_ok]
    rw [drop32_header, u16leParse_flatten, map_mod65536_id _ (fun v hvm => ?_)]
    rw [List.mem_map] at hvm
    obtain ⟨w, _, hw⟩ := hvm
    rw [← hw]
    exact satU16_lt w
  · intro v hlo hhi
    unfold satU16
    rw [Nat.mod_eq_of_lt hhi, if_pos hlo]

/-- Witness for C3 (amended): value 5000 (> 4095, < 65536) is stored as
exactly 4095. -/
theorem LPF.save_payload_mod_clamp_witness :
    (⟨1, 1, 1000, 1, [[5000]]⟩ : LPF.Data).file_version = 1 ∧
    (LPF.save ⟨1, 1, 1000, 1, [[5000]]⟩).map
      (fun bs => u16leParse (bs.drop 32)) = Except.ok [4095] := by
  refine ⟨rfl, ?_⟩
  have h := (LPF.save_payload_mod_clamp ⟨1, 1, 1000, 1, [[5000]]⟩ rfl
    (by norm_num) (by norm_num) (by norm_num)).1
  rw [h]
  rfl

theorem getD_take_of_lt {α : Type} (l : List α) (d : α) :
    ∀ (n i : Nat), i < n → (l.take n).getD i d = l.getD i d := by
  induction l with
  | nil => intro n i _; rw [List.take_nil]
  | cons a t ih =>
    intro n i hi
    match n, i with
    | m + 1, 0 => rfl
    | m + 1, j + 1 =>
      show (t.take m).getD j d = t.getD j d
      exact ih m j (by omega)

/-- Claim C10: `LPF.load` never reads the 16 reserved header bytes; two
files that agree on bytes 0-15 and on everything from byte 32 onward load
identically. -/
theorem LPF.load_ignores_reserved (b1 b2 : List Nat)
    (h16 : b1.take 16 = b2.take 16) (h32 : b1.drop 32 = b2.drop 32)
    (hl1 : 32 ≤ b1.length) (hl2 : 32 ≤ b2.length) :
    LPF.load b1 = LPF.load b2 := by
  have hlen : b1.length = b2.length := by
    have e1 : (b1.drop 32).length = b1.length - 32 := List.length_drop 32 b1
    have e2 : (b2.drop 32).length = b2.length - 32 := List.length_drop 32 b2
    rw [h32, e2] at e1
    omega
  have hg : ∀ j, j < 16 → b1.getD j 0 = b2.getD j 0 := by
    intro j hj
    rw [← getD_take_of_lt b1 0 16 j hj, h16, getD_take_of_lt b2 0 16 j hj]
  have hr : ∀ off, off + 3 < 16 → readU32 b1 off = readU32 b2 off := by
    intro off hoff
    unfold readU32
    rw [hg off (by omega), hg (off + 1) (by omega), hg (off + 2) (by omega),
      hg (off + 3) (by omega)]
  unfold LPF.load
  rw [hr 0 (by omega), hr 4 (by omega), hr 8 (by omega), hr 12 (by omega),
    hlen, h32]

/-- Witness for C10: two concrete 34-byte version-1 files that differ in
every reserved byte load identically. -/
theorem LPF.load_ignores_reserved_witness :
    (u32le 1 ++ (u32le 1 ++ (u32le 50 ++ (u32le 1 ++
      (List.replicate 16 0 ++ [7, 0]))))).take 16 =
    (u32le 1 ++ (u32le 1 ++ (u32le 50 ++ (u32le 1 ++
      (List.replicate 16 9 ++ [7, 0]))))).take 16 ∧
    LPF.load (u32le 1 ++ (u32le 1 ++ (u32le 50 ++ (u32le 1 ++
      (List.replicate 16 0 ++ [7, 0]))))) =
    LPF.load (u32le 1 ++ (u32le 1 ++ (u32le 50 ++ (u32le 1 ++
      (List.replicate 16 9 ++ [7, 0]))))) :=
  ⟨by decide, LPF.load_ignores_reserved _ _ (by decide) (by decide)
    (by decide) (by decide)⟩

/-! ## Conversion properties of `LEDSet` -/

/-- Evaluation of `LEDSet.dcOfWell` for the unit calibration row at
gcal = 1: the wrapped ceiling of the requested intensity. -/
theorem LEDSet.dcOfWell_unit (i : ℚ) (z : ℤ) (h : i = (z : ℚ)) :
    LEDSet.dcOfWell ⟨1, 1, 1⟩ i 1 = z % 65536 := by
  rw [LEDSet.dcOfWell_eq_ceil]
  unfold castU16
  rw [show (1 : ℚ) * (i / 1) * ((1 : ℚ) / 1) = i by ring, h, Int.ceil_intCast]

/-- Claim C6: evaluation of `LEDSet.optimize_dc` at a single unit-calibrated
well with min_dc = 1, uniform = False.  Requested intensity 63 gives dot
correction 63; requested intensity 65536 requires the computed (ceiling)
value 65536 > 63, so the claim requires failure and monotonicity, but the
value is converted to uint16 before `numpy.maximum` and the feasibility
check: it wraps to 0, is floored to min_dc = 1, and the call succeeds with
the smaller value 1. -/
theorem LEDSet.optimize_dc_uint16_wrap :
    LEDSet.optimize_dc [⟨1, 1, 1⟩] [65536] [1] 1 false = Except.ok [1] ∧
    LEDSet.optimize_dc [⟨1, 1, 1⟩] [63] [1] 1 false = Except.ok [63] ∧
    ⌈(1 : ℚ) * ((65536 : ℚ) / 1) * (1 / 1)⌉ = 65536 ∧ (63 : ℤ) < 65536 := by
  have e1 : LEDSet.dcOfWell ⟨1, 1, 1⟩ 65536 1 = 0 := by
    rw [LEDSet.dcOfWell_unit 65536 65536 (by norm_num)]
    decide
  have e2 : LEDSet.dcOfWell ⟨1, 1, 1⟩ 63 1 = 63 := by
    rw [LEDSet.dcOfWell_unit 63 63 (by norm_num)]
    decide
  refine ⟨?_, ?_, ?_, by decide⟩
  · unfold LEDSet.optimize_dc
    simp [e1, max_def]
  · unfold LEDSet.optimize_dc
    simp [e2, max_def]
  · rw [show (1 : ℚ) * ((65536 : ℚ) / 1) * (1 / 1) = (((65536 : ℤ) : ℚ)) by
      norm_num, Int.ceil_intCast]

/-- Composing `intensityOfWell` and `gsOfWell` for one well with positive
calibration data, dc, and gcal recovers any grayscale value in [0, 4095]
exactly. -/
theorem LEDSet.roundtrip_well (c : LEDSet.CalibWell) (d g : ℚ) (z : ℤ)
    (hmdc : 0 < c.mdc) (hmg : 0 < c.mgcal) (hmI : 0 < c.mI)
    (hd : 0 < d) (hg : 0 < g) (hz0 : 0 ≤ z) (hz : z ≤ 4095) :
    LEDSet.gsOfWell c (LEDSet.intensityOfWell c (z : ℚ) d g) d g = z := by
  unfold LEDSet.gsOfWell LEDSet.intensityOfWell castU16
  have harg : 4095 * ((c.mI * (d / c.mdc) * (g / c.mgcal) * ((z : ℚ) / 4095)) /
      c.mI) * (c.mdc / d) * (c.mgcal / g) = (z : ℚ) := by
    field_simp
    ring
  rw [harg, roundHalfEven_intCast]
  omega

theorem LEDSet.roundtrip_zip :
    ∀ (calib : List LEDSet.CalibWell) (dc gcal : List ℚ) (gs : List ℤ),
    dc.length = calib.length → gcal.length = calib.length →
    gs.length = calib.length →
    (∀ c ∈ calib, 0 < c.mdc ∧ 0 < c.mgcal ∧ 0 < c.mI) →
    (∀ d ∈ dc, 0 < d) → (∀ g ∈ gcal, 0 < g) →
    (∀ z ∈ gs, 0 ≤ z ∧ z ≤ 4095) →
    List.zipWith (fun c t => LEDSet.gsOfWell c t.1 t.2.1 t.2.2) calib
      ((LEDSet.get_intensity calib (gs.map (fun z => (z : ℚ))) dc gcal).zip
        (dc.zip gcal)) = gs := by
  intro calib
  induction calib with
  | nil =>
    intro dc gcal gs _ _ hgs _ _ _ _
    rw [List.length_nil] at hgs
    rw [List.eq_nil_of_length_eq_zero hgs]
    rfl
  | cons c calib ih =>
    intro dc gcal gs hdc hgcal hgs hc hd hg hz
    match dc, gcal, gs with
    | d :: dc, g :: gcal, z :: gs =>
      have hhead : LEDSet.gsOfWell c (LEDSet.intensityOfWell c (z : ℚ) d g) d g
          = z := by
        obtain ⟨h1, h2, h3⟩ := hc c (by simp)
        obtain ⟨h4, h5⟩ := hz z (by simp)
        exact LEDSet.roundtrip_well c d g z h1 h2 h3
          (hd d (by simp)) (hg g (by simp)) h4 h5
      show LEDSet.gsOfWell c (LEDSet.intensityOfWell c (z : ℚ) d g) d g ::
        List.zipWith _ calib
          ((LEDSet.get_intensity calib (gs.map (fun z => (z : ℚ))) dc gcal).zip
            (dc.zip gcal)) = z :: gs
      rw [hhead, ih dc gcal gs (by simpa using hdc) (by simpa using hgcal)
        (by simpa using hgs)
        (fun c hcm => hc c (List.mem_cons_of_mem _ hcm))
        (fun d hdm => hd d (List.mem_cons_of_mem _ hdm))
        (fun g hgm => hg g (List.mem_cons_of_mem _ hgm))
        (fun z hzm => hz z (List.mem_cons_of_mem _ hzm))]

/-- Claim C7: for grayscale values in [0, 4095] and positive dc, gcal and
calibration data, `get_intensity` followed by `get_grayscale` with the same
dc and gcal returns the original grayscale values (here exactly, since the
arithmetic is exact). -/
theorem LEDSet.grayscale_intensity_inverse
    (calib : List LEDSet.CalibWell) (dc gcal : List ℚ) (gs : List ℤ)
    (hdc : dc.length = calib.length) (hgcal : gcal.length = calib.length)
    (hgs : gs.length = calib.length)
    (hc : ∀ c ∈ calib, 0 < c.mdc ∧ 0 < c.mgcal ∧ 0 < c.mI)
    (hd : ∀ d ∈ dc, 0 < d) (hg : ∀ g ∈ gcal, 0 < g)
    (hz : ∀ z ∈ gs, 0 ≤ z ∧ z ≤ 4095) :
    LEDSet.get_grayscale calib
      (LEDSet.get_intensity calib (gs.map (fun z => (z : ℚ))) dc gcal)
      dc gcal = Except.ok gs := by
  unfold LEDSet.get_grayscale
  rw [LEDSet.roundtrip_zip calib dc gcal gs hdc hgcal hgs hc hd hg hz]
  rw [if_neg ?_]
  simp only [List.any_eq_true, not_exists, not_and]
  intro z hzm
  have := (hz z hzm).2
  simp only [decide_eq_true_eq]
  omega

/-- Witness for C7: one well with calibration (2, 3, 5), dc = 4, gcal = 7
recovers grayscale 100. -/
theorem LEDSet.grayscale_intensity_inverse_witness :
    (∀ z ∈ [(100 : ℤ)], 0 ≤ z ∧ z ≤ 4095) ∧
    LEDSet.get_grayscale [⟨2, 3, 5⟩]
      (LEDSet.get_intensity [⟨2, 3, 5⟩] ([(100 : ℤ)].map (fun z => (z : ℚ)))
        [4] [7]) [4] [7] = Except.ok [100] :=
  ⟨by decide, LEDSet.grayscale_intensity_inverse [⟨2, 3, 5⟩] [4] [7] [100]
    rfl rfl rfl (by decide) (by decide) (by decide) (by decide)⟩

/-- Claim C8: with nonzero measured calibration entries, `get_intensity`
at grayscale 0 returns intensity 0 for every selected well, for any dc and
gcal values. -/
theorem LEDSet.get_intensity_zero :
    ∀ (calib : List LEDSet.CalibWell) (dc gcal : List ℚ),
    dc.length = calib.length → gcal.length = calib.length →
    (∀ c ∈ calib, c.mdc ≠ 0 ∧ c.mgcal ≠ 0) →
    LEDSet.get_intensity calib (List.replicate calib.length 0) dc gcal =
      List.replicate calib.length 0 := by
  intro calib
  induction calib with
  | nil => intro dc gcal _ _ _; rfl
  | cons c calib ih =>
    intro dc gcal hdc hgcal hc
    match dc, gcal with
    | d :: dc, g :: gcal =>
      show LEDSet.intensityOfWell c 0 d g ::
        LEDSet.get_intensity calib (List.replicate calib.length 0) dc gcal =
        0 :: List.replicate calib.length 0
      rw [show LEDSet.intensityOfWell c 0 d g = 0 by
        unfold LEDSet.intensityOfWell; rw [zero_div, mul_zero]]
      rw [ih dc gcal (by simpa using hdc) (by simpa using hgcal)
        (fun c hcm => hc c (List.mem_cons_of_mem _ hcm))]

/-- Witness for C8: one well with unit calibration, dc = 17, gcal = 0 still
maps grayscale 0 to intensity 0. -/
theorem LEDSet.get_intensity_zero_witness :
    (∀ c ∈ [(⟨1, 1, 1⟩ : LEDSet.CalibWell)], c.mdc ≠ 0 ∧ c.mgcal ≠ 0) ∧
    LEDSet.get_intensity [⟨1, 1, 1⟩] (List.replicate 1 0) [17] [0] =
      List.replicate 1 0 :=
  ⟨by decide, LEDSet.get_intensity_zero [⟨1, 1, 1⟩] [17] [0] rfl rfl
    (by decide)⟩

/-! ## The LPA object: intensity buffer, staggered timecourse, discretize -/

/-- The mutable state of an `LPA` object: plate dimensions, number of time
steps of the intensity array, and the intensity / dot correction /
grayscale calibration grids (total functions indexed by step, row, column
and channel; only indices below the declared extents are meaningful). -/
structure LPAState where
  n_rows : Nat
  n_cols : Nat
  n_channels : Nat
  n_steps : Nat
  intensity : Nat → Nat → Nat → Nat → ℚ
  dc : Nat → Nat → Nat → ℚ
  gcal : Nat → Nat → Nat → ℚ

namespace LPA

/-- `LPA.set_n_steps`: grow the step dimension by repeating the last time
step, or shrink it by truncation. -/
def set_n_steps (s : LPAState) (n : Nat) : LPAState :=
  if s.n_steps < n then
    { s with
        n_steps := n,
        intensity := fun st r c ch =>
          if st < s.n_steps then s.intensity st r c ch
          else s.intensity (s.n_steps - 1) r c ch }
  else if n < s.n_steps then { s with n_steps := n }
  else s

/-- Effective start index of the Python slice `xs[st:]` for a list of
length `n`. -/
def pyStart (n : Nat) (st : Int) : Nat :=
  if st < 0 then n - (-st).toNat else min st.toNat n

/-- The Python slice `xs[:e]`. -/
def pySliceTo {α : Type} (xs : List α) (e : Int) : List α :=
  if 0 ≤ e then xs.take e.toNat else xs.take (xs.length - (-e).toNat)

/-- numpy slice assignment `xs[st:] = rhs`: the right-hand side must have
the length of the slice, or length 1 (broadcast); otherwise the assignment
raises. -/
def pySetSliceFrom (xs : List ℚ) (st : Int) (rhs : List ℚ) :
    Except String (List ℚ) :=
  if rhs.length = xs.length - pyStart xs.length st then
    .ok (xs.take (pyStart xs.length st) ++ rhs)
  else if rhs.length = 1 then
    .ok (xs.take (pyStart xs.length st) ++
      List.replicate (xs.length - pyStart xs.length st) (rhs.getD 0 0))
  else .error "could not broadcast input array"

/-- The per-well series built by `set_timecourse_staggered`:
`intensity_well = ones(n_steps) * intensity_pre;
intensity_well[start_step:] = intensity[:n_steps - start_step]` with
`start_step = n_steps - sampling_steps[i]`. -/
def stagWellSeries (w : List ℚ) (pre : ℚ) (n : Nat) (k : Int) :
    Except String (List ℚ) :=
  pySetSliceFrom (List.replicate n pre) ((n : Int) - k)
    (pySliceTo w ((n : Int) - ((n : Int) - k)))

/-- One iteration of the well loop of `set_timecourse_staggered`: build the
series for the well and write it into
`self.intensity[:, row, col, channel]`. -/
def stagAssign (w : List ℚ) (pre : ℚ) (ch : Nat) (s : LPAState)
    (row col : Nat) (k : Int) : Except String LPAState :=
  match stagWellSeries w pre s.n_steps k with
  | .error e => .error e
  | .ok series =>
    .ok { s with
            intensity := fun st r c chn =>
              if r = row ∧ c = col ∧ chn = ch then series.getD st 0
              else s.intensity st r c chn }

/-- The well loop of `set_timecourse_staggered`, processing
`zip(rows, cols, start_steps)` in order; a raise leaves the wells already
written in place. -/
def stagLoop (w : List ℚ) (pre : ℚ) (ch : Nat) :
    LPAState → List ((Nat × Nat) × Int) → Option String × LPAState
  | s, [] => (none, s)
  | s, ((row, col), k) :: rest =>
    match stagAssign w pre ch s row col k with
    | .error e => (some e, s)
    | .ok s1 => stagLoop w pre ch s1 rest

/-- Row and column index lists used by `set_timecourse_staggered`: the
given ones, or `numpy.repeat(arange(n_rows), n_cols)` and
`numpy.tile(arange(n_cols), n_rows)` when either is None. -/
def resolveWells (s : LPAState) (rc : Option (List Nat × List Nat)) :
    List Nat × List Nat :=
  match rc with
  | some p => p
  | none => ((List.range s.n_rows).flatMap (fun r => List.replicate s.n_cols r),
      (List.replicate s.n_rows (List.range s.n_cols)).flatten)

/-- `LPA.set_timecourse_staggered`: validate the lengths of `rows`, `cols`
and `sampling_steps`, grow the buffer to hold the waveform if needed, then
write each well's delayed copy of the waveform. -/
def set_timecourse_staggered (s : LPAState) (w : List ℚ) (pre : ℚ)
    (ks : List Int) (ch : Nat) (rc : Option (List Nat × List Nat)) :
    Option String × LPAState :=
  if (resolveWells s rc).1.length ≠ (resolveWells s rc).2.length then
    (some "rows and cols should have the same length", s)
  else if (resolveWells s rc).1.length ≠ ks.length then
    (some "number of sampling steps should match the number of wells", s)
  else
    stagLoop w pre ch
      (if s.n_steps < w.length then set_n_steps s w.length else s)
      (((resolveWells s rc).1.zip (resolveWells s rc).2).zip ks)

/-- One `(step, channel)` iteration of `LPA.discretize_intensity`: apply
`LEDSet.discretize_intensity` to the flattened well data of the channel,
prepending step/channel context to any error. -/
def discretizeStepChannel (leds : List (List LEDSet.CalibWell)) (s : LPAState)
    (step ch : Nat) : Except String (List ℚ) :=
  match LEDSet.discretize_intensity (leds.getD ch [])
    ((List.range (s.n_rows * s.n_cols)).map
      (fun wi => s.intensity step (wi / s.n_cols) (wi % s.n_cols) ch))
    ((List.range (s.n_rows * s.n_cols)).map
      (fun wi => s.dc (wi / s.n_cols) (wi % s.n_cols) ch))
    ((List.range (s.n_rows * s.n_cols)).map
      (fun wi => s.gcal (wi / s.n_cols) (wi % s.n_cols) ch)) with
  | .error e => .error ("on step " ++ toString step ++ ", channel " ++
      toString ch ++ ": " ++ e)
  | .ok vals => .ok vals

/-- The step/channel loop of `LPA.discretize_intensity`, writing each
result into the scratch array; the first failure aborts the loop. -/
def scratchLoop (leds : List (List LEDSet.CalibWell)) (s : LPAState) :
    List (Nat × Nat) → (Nat → Nat → Nat → Nat → ℚ) →
    Except String (Nat → Nat → Nat → Nat → ℚ)
  | [], acc => .ok acc
  | (step, ch) :: rest, acc =>
    match discretizeStepChannel leds s step ch with
    | .error e => .error e
    | .ok vals => scratchLoop leds s rest (fun st r c chn =>
        if st = step ∧ chn = ch ∧ r < s.n_rows ∧ c < s.n_cols then
          vals.getD (r * s.n_cols + c) 0
        else acc st r c chn)

/-- The `(step, channel)` iteration order of `LPA.discretize_intensity`. -/
def stepChannelPairs (s : LPAState) : List (Nat × Nat) :=
  (List.range s.n_steps).flatMap
    (fun st => (List.range s.n_channels).map (fun ch => (st, ch)))

/-- `LPA.discretize_intensity`: compute all discretized values into a
scratch array initialized by `numpy.zeros_like`, and replace the object's
intensity array only after every step and channel has succeeded. -/
def discretize_intensity (leds : List (List LEDSet.CalibWell))
    (s : LPAState) : Option String × LPAState :=
  match scratchLoop leds s (stepChannelPairs s) (fun _ _ _ _ => 0) with
  | .error e => (some e, s)
  | .ok scratch => (none, { s with intensity := scratch })

end LPA

/-- Claim C4: if any per-step/per-channel conversion inside
`LPA.discretize_intensity` fails, the returned state --- intensity array,
dc grid and gcal grid --- is exactly the state before the call: the scratch
array is swapped in only on full success. -/
theorem LPA.discretize_intensity_preserves_state_on_error
    (leds : List (List LEDSet.CalibWell)) (s : LPAState)
    (h : (LPA.discretize_intensity leds s).1.isSome = true) :
    (LPA.discretize_intensity leds s).2 = s := by
  unfold LPA.discretize_intensity at h ⊢
  revert h
  cases hsc : LPA.scratchLoop leds s (LPA.stepChannelPairs s)
      (fun _ _ _ _ => 0) with
  | error e => intro h; rfl
  | ok scratch => intro h; simp at h

/-- One-well, one-step, one-channel LED data used to witness C4. -/
def LPA.exampleLeds : List (List LEDSet.CalibWell) := [[⟨1, 1, 1⟩]]

/-- A 1x1 plate state whose single intensity 10 is unreachable at
dc = 1, gcal = 1 under `LPA.exampleLeds` (grayscale 40950 > 4095). -/
def LPA.exampleState : LPAState :=
  ⟨1, 1, 1, 1, fun _ _ _ _ => 10, fun _ _ _ => 1, fun _ _ _ => 1⟩

/-- Witness for C4: discretizing `LPA.exampleState` fails (requested
grayscale 40950 exceeds 4095) and leaves the state unchanged. -/
theorem LPA.discretize_intensity_preserves_state_on_error_witness :
    (LPA.discretize_intensity LPA.exampleLeds LPA.exampleState).1.isSome =
      true ∧
    (LPA.discretize_intensity LPA.exampleLeds LPA.exampleState).2 =
      LPA.exampleState := by
  have hgs : LEDSet.gsOfWell ⟨1, 1, 1⟩ 10 1 1 = 40950 := by
    rw [LEDSet.gsOfWell_unit 10 40950 (by norm_num)]
    decide
  have hgg : LEDSet.get_grayscale [⟨1, 1, 1⟩] [10] [1] [1] = Except.error
      "not possible to generate requested intensity with provided dc value. " := by
    unfold LEDSet.get_grayscale
    simp [hgs]
  have hfst : (LPA.discretize_intensity LPA.exampleLeds LPA.exampleState).1.isSome =
      true := by
    simp [LPA.discretize_intensity, LPA.stepChannelPairs, LPA.scratchLoop,
      LPA.discretizeStepChannel, LEDSet.discretize_intensity, hgg,
      LPA.exampleLeds, LPA.exampleState]
  exact ⟨hfst, LPA.discretize_intensity_preserves_state_on_error
    LPA.exampleLeds LPA.exampleState hfst⟩

/-! ## Properties of the staggered timecourse assignment -/

theorem getD_replicate_of_lt {α : Type} (a d : α) :
    ∀ (m i : Nat), i < m → (List.replicate m a).getD i d = a := by
  intro m
  induction m with
  | zero => intro i h; omega
  | succ m ih =>
    intro i h
    match i with
    | 0 => rfl
    | j + 1 => exact ih j (by omega)

theorem getD_zip_of_lt {α β : Type} (l1 : List α) (l2 : List β) (i : Nat)
    (d1 : α) (d2 : β) (h1 : i < l1.length) (h2 : i < l2.length) :
    (l1.zip l2).getD i (d1, d2) = (l1.getD i d1, l2.getD i d2) := by
  have hz : i < (l1.zip l2).length := by rw [List.length_zip]; omega
  rw [List.getD_eq_getElem _ _ hz, List.getD_eq_getElem _ _ h1,
    List.getD_eq_getElem _ _ h2, List.getElem_zip]

theorem series_getD_pre (pre : ℚ) (w : List ℚ) (m j : Nat) (hj : j < m) :
    (List.replicate m pre ++ w).getD j 0 = pre := by
  rw [List.getD_append _ _ _ _ (by rw [List.length_replicate]; omega)]
  exact getD_replicate_of_lt pre 0 m j hj

theorem series_getD_wave (pre : ℚ) (w : List ℚ) (m k' j : Nat)
    (h1 : m ≤ j) (h2 : j < m + k') :
    (List.replicate m pre ++ w.take k').getD j 0 = w.getD (j - m) 0 := by
  rw [List.getD_append_right _ _ _ _ (by rw [List.length_replicate]; omega)]
  rw [List.length_replicate]
  exact getD_take_of_lt w 0 k' (j - m) (by omega)

/-- With a nonnegative offset `k` no larger than the buffer length `n` nor
the waveform length, the per-well series of `set_timecourse_staggered` is
`pre` on the first `n - k` steps followed by the first `k` waveform
values. -/
theorem LPA.stagWellSeries_ok (w : List ℚ) (pre : ℚ) (n : Nat) (k : Int)
    (h0 : 0 ≤ k) (hn : k.toNat ≤ n) (hL : k.toNat ≤ w.length) :
    LPA.stagWellSeries w pre n k =
      Except.ok (List.replicate (n - k.toNat) pre ++ w.take k.toNat) := by
  have e1 : (n : Int) - ((n : Int) - k) = k := by ring
  have hslice : LPA.pySliceTo w ((n : Int) - ((n : Int) - k)) =
      w.take k.toNat := by
    unfold LPA.pySliceTo
    rw [e1, if_pos h0]
  have hstart : LPA.pyStart (List.replicate n pre).length ((n : Int) - k) =
      n - k.toNat := by
    unfold LPA.pyStart
    rw [List.length_replicate, if_neg (by omega)]
    omega
  unfold LPA.stagWellSeries LPA.pySetSliceFrom
  rw [hslice, hstart, List.length_replicate]
  rw [List.length_take, if_pos (by omega)]
  rw [List.take_replicate, show min (n - k.toNat) n = n - k.toNat from by omega]

/-- Behaviour of the well loop of `set_timecourse_staggered` when every
offset is admissible: it succeeds, keeps the number of steps, does not
touch wells (or channels) outside the processed list, and writes each
listed well's series (provided the well list has no duplicates). -/
theorem LPA.stagLoop_spec (w : List ℚ) (pre : ℚ) (ch : Nat) :
    ∀ (ts : List ((Nat × Nat) × Int)) (s : LPAState),
    (∀ t ∈ ts, 0 ≤ t.2 ∧ t.2.toNat ≤ s.n_steps ∧ t.2.toNat ≤ w.length) →
    (LPA.stagLoop w pre ch s ts).1 = none ∧
    (LPA.stagLoop w pre ch s ts).2.n_steps = s.n_steps ∧
    (∀ st r c chn, (∀ t ∈ ts, ¬ (r = t.1.1 ∧ c = t.1.2 ∧ chn = ch)) →
      (LPA.stagLoop w pre ch s ts).2.intensity st r c chn =
        s.intensity st r c chn) ∧
    ((ts.map Prod.fst).Nodup → ∀ t ∈ ts, ∀ st,
      (LPA.stagLoop w pre ch s ts).2.intensity st t.1.1 t.1.2 ch =
        (List.replicate (s.n_steps - t.2.toNat) pre ++
          w.take t.2.toNat).getD st 0) := by
  intro ts
  induction ts with
  | nil =>
    intro s _
    exact ⟨rfl, rfl, fun _ _ _ _ _ => rfl,
      fun _ t ht => absurd ht (List.not_mem_nil t)⟩
  | cons t0 rest ih =>
    obtain ⟨⟨row, col⟩, k⟩ := t0
    intro s hok
    obtain ⟨hk0, hk1, hk2⟩ := hok ((row, col), k) (List.mem_cons_self _ _)
    have hser := LPA.stagWellSeries_ok w pre s.n_steps k hk0 hk1 hk2
    obtain ⟨s1, ha, hs1n, hs1other, hs1well⟩ :
        ∃ s1, LPA.stagAssign w pre ch s row col k = Except.ok s1 ∧
          s1.n_steps = s.n_steps ∧
          (∀ st r c chn, ¬ (r = row ∧ c = col ∧ chn = ch) →
            s1.intensity st r c chn = s.intensity st r c chn) ∧
          (∀ st, s1.intensity st row col ch =
            (List.replicate (s.n_steps - k.toNat) pre ++
              w.take k.toNat).getD st 0) := by
      refine ⟨{ s with
          intensity := fun st r c chn =>
            if r = row ∧ c = col ∧ chn = ch then
              (List.replicate (s.n_steps - k.toNat) pre ++
                w.take k.toNat).getD st 0
            else s.intensity st r c chn }, ?_, rfl, ?_, ?_⟩
      · unfold LPA.stagAssign
        rw [hser]
      · intro st r c chn hnot
        show (if r = row ∧ c = col ∧ chn = ch then
          (List.replicate (s.n_steps - k.toNat) pre ++
            w.take k.toNat).getD st 0
          else s.intensity st r c chn) = s.intensity st r c chn
        exact if_neg hnot
      · intro st
        show (if row = row ∧ col = col ∧ ch = ch then
          (List.replicate (s.n_steps - k.toNat) pre ++
            w.take k.toNat).getD st 0
          else s.intensity st row col ch) =
          (List.replicate (s.n_steps - k.toNat) pre ++
            w.take k.toNat).getD st 0
        exact if_pos ⟨rfl, rfl, rfl⟩
    have hred : LPA.stagLoop w pre ch s (((row, col), k) :: rest) =
        LPA.stagLoop w pre ch s1 rest := by
      simp only [LPA.stagLoop, ha]
    have hok' : ∀ t ∈ rest, 0 ≤ t.2 ∧ t.2.toNat ≤ s1.n_steps ∧
        t.2.toNat ≤ w.length := by
      intro t ht
      obtain ⟨a, b, c⟩ := hok t (List.mem_cons_of_mem _ ht)
      exact ⟨a, by rw [hs1n]; exact b, c⟩
    obtain ⟨ih1, ih2, ih3, ih4⟩ := ih s1 hok'
    rw [hred]
    refine ⟨ih1, by rw [ih2, hs1n], ?_, ?_⟩
    · intro st r c chn hno
      rw [ih3 st r c chn (fun t ht => hno t (List.mem_cons_of_mem _ ht)),
        hs1other st r c chn (hno ((row, col), k) (List.mem_cons_self _ _))]
    · intro hnd t ht st
      rw [List.map_cons, List.nodup_cons] at hnd
      obtain ⟨hhead, htail⟩ := hnd
      rcases List.mem_cons.mp ht with rfl | hmem
      · dsimp only
        rw [ih3 st row col ch ?_]
        · exact hs1well st
        · intro t' ht' hcon
          obtain ⟨e1, e2, _⟩ := hcon
          apply hhead
          have ht1 : t'.1 = (row, col) := Prod.ext e1.symm e2.symm
          exact List.mem_map.mpr ⟨t', ht', ht1⟩
      · rw [ih4 htail t hmem st, hs1n]

/-- Combined specification of `set_timecourse_staggered` for admissible
inputs: the call succeeds, the resulting buffer length is
`max s.n_steps w.length`, and every listed well's series is `pre` followed
by the first `k` waveform values, endpoint-aligned. -/
theorem LPA.set_timecourse_staggered_spec
    (s : LPAState) (w : List ℚ) (pre : ℚ) (ks : List Int) (ch : Nat)
    (rc : Option (List Nat × List Nat)) (rows cols : List Nat)
    (hrc : LPA.resolveWells s rc = (rows, cols))
    (hlen1 : rows.length = cols.length) (hlen2 : rows.length = ks.length)
    (hnd : (rows.zip cols).Nodup)
    (hks : ∀ k ∈ ks, 0 ≤ k ∧ k.toNat ≤ w.length ∧
      k.toNat ≤ max s.n_steps w.length) :
    (LPA.set_timecourse_staggered s w pre ks ch rc).1 = none ∧
    (LPA.set_timecourse_staggered s w pre ks ch rc).2.n_steps =
      max s.n_steps w.length ∧
    ∀ i, i < rows.length → ∀ st,
      (LPA.set_timecourse_staggered s w pre ks ch rc).2.intensity st
        (rows.getD i 0) (cols.getD i 0) ch =
      (List.replicate (max s.n_steps w.length - (ks.getD i 0).toNat) pre ++
        w.take (ks.getD i 0).toNat).getD st 0 := by
  have hs1n : (if s.n_steps < w.length then LPA.set_n_steps s w.length
      else s).n_steps = max s.n_steps w.length := by
    by_cases hlt : s.n_steps < w.length
    · rw [if_pos hlt]
      unfold LPA.set_n_steps
      rw [if_pos hlt]
      show w.length = max s.n_steps w.length
      omega
    · rw [if_neg hlt]
      show s.n_steps = max s.n_steps w.length
      omega
  have hok : ∀ t ∈ (rows.zip cols).zip ks, 0 ≤ t.2 ∧
      t.2.toNat ≤ (if s.n_steps < w.length then LPA.set_n_steps s w.length
        else s).n_steps ∧ t.2.toNat ≤ w.length := by
    intro t ht
    obtain ⟨p, k⟩ := t
    obtain ⟨a, b, c⟩ := hks k (List.of_mem_zip ht).2
    exact ⟨a, by rw [hs1n]; exact c, b⟩
  obtain ⟨L1, L2, L3, L4⟩ := LPA.stagLoop_spec w pre ch
    ((rows.zip cols).zip ks)
    (if s.n_steps < w.length then LPA.set_n_steps s w.length else s) hok
  have hred : LPA.set_timecourse_staggered s w pre ks ch rc =
      LPA.stagLoop w pre ch
        (if s.n_steps < w.length then LPA.set_n_steps s w.length else s)
        ((rows.zip cols).zip ks) := by
    unfold LPA.set_timecourse_staggered
    rw [hrc]
    dsimp only
    rw [if_neg (by omega), if_neg (by omega)]
  rw [hred]
  refine ⟨L1, by rw [L2, hs1n], ?_⟩
  intro i hi st
  have hts : ((rows.zip cols).zip ks).getD i ((0, 0), 0) =
      ((rows.getD i 0, cols.getD i 0), ks.getD i 0) := by
    rw [getD_zip_of_lt _ _ _ _ _ (by rw [List.length_zip]; omega) (by omega),
      getD_zip_of_lt _ _ _ _ _ (by omega) (by omega)]
  have hilen : i < ((rows.zip cols).zip ks).length := by
    rw [List.length_zip, List.length_zip]
    omega
  have hmem : ((rows.getD i 0, cols.getD i 0), ks.getD i 0) ∈
      (rows.zip cols).zip ks := by
    rw [← hts, List.getD_eq_getElem _ _ hilen]
    exact List.getElem_mem hilen
  have hndm : ((((rows.zip cols).zip ks)).map Prod.fst).Nodup := by
    rw [List.map_fst_zip _ _ (by rw [List.length_zip]; omega)]
    exact hnd
  have hwell := L4 hndm _ hmem st
  dsimp only at hwell
  rw [hwell, hs1n]

/-- Claim C5: after `set_timecourse_staggered` with waveform `w`, per-well
offsets `ks` (each nonnegative, at most the waveform length, and at most
the resulting buffer length `n = max s.n_steps w.length`), and distinct
wells, the call succeeds and well `i`'s series equals `pre` at every index
below `start = n - ks[i]` and `w[j - start]` at every index
`start ≤ j < n`; in particular the value at the final index `n - 1` is
`w[ks[i] - 1]` whenever `ks[i] ≥ 1`. -/
theorem LPA.set_timecourse_staggered_series
    (s : LPAState) (w : List ℚ) (pre : ℚ) (ks : List Int) (ch : Nat)
    (rc : Option (List Nat × List Nat)) (rows cols : List Nat)
    (hrc : LPA.resolveWells s rc = (rows, cols))
    (hlen1 : rows.length = cols.length) (hlen2 : rows.length = ks.length)
    (hnd : (rows.zip cols).Nodup)
    (hks : ∀ k ∈ ks, 0 ≤ k ∧ k.toNat ≤ w.length ∧
      k.toNat ≤ max s.n_steps w.length) :
    (LPA.set_timecourse_staggered s w pre ks ch rc).1 = none ∧
    (LPA.set_timecourse_staggered s w pre ks ch rc).2.n_steps =
      max s.n_steps w.length ∧
    ∀ i, i < rows.length →
      (∀ j, j < max s.n_steps w.length - (ks.getD i 0).toNat →
        (LPA.set_timecourse_staggered s w pre ks ch rc).2.intensity j
          (rows.getD i 0) (cols.getD i 0) ch = pre) ∧
      (∀ j, max s.n_steps w.length - (ks.getD i 0).toNat ≤ j →
        j < max s.n_steps w.length →
        (LPA.set_timecourse_staggered s w pre ks ch rc).2.intensity j
          (rows.getD i 0) (cols.getD i 0) ch =
          w.getD (j - (max s.n_steps w.length - (ks.getD i 0).toNat)) 0) ∧
      (1 ≤ (ks.getD i 0).toNat →
        (LPA.set_timecourse_staggered s w pre ks ch rc).2.intensity
          (max s.n_steps w.length - 1) (rows.getD i 0) (cols.getD i 0) ch =
          w.getD ((ks.getD i 0).toNat - 1) 0) := by
  obtain ⟨L1, L2, L3⟩ := LPA.set_timecourse_staggered_spec s w pre ks ch rc
    rows cols hrc hlen1 hlen2 hnd hks
  refine ⟨L1, L2, ?_⟩
  intro i hi
  have hkmem : 0 ≤ ks.getD i 0 ∧ (ks.getD i 0).toNat ≤ w.length ∧
      (ks.getD i 0).toNat ≤ max s.n_steps w.length := by
    refine hks (ks.getD i 0) ?_
    rw [List.getD_eq_getElem _ _ (by omega : i < ks.length)]
    exact List.getElem_mem (by omega)
  refine ⟨?_, ?_, ?_⟩
  · intro j hj
    rw [L3 i hi j]
    exact series_getD_pre pre _ _ j hj
  · intro j hjlo hjhi
    rw [L3 i hi j]
    exact series_getD_wave pre w _ _ j hjlo (by omega)
  · intro hk1
    rw [L3 i hi (max s.n_steps w.length - 1)]
    rw [series_getD_wave pre w _ _ (max s.n_steps w.length - 1) (by omega)
      (by omega)]
    congr 1
    omega

/-- Claim C9: a well whose sampling offset is 0 has its whole series set to
`pre` by `set_timecourse_staggered`: the waveform does not appear at any
step for that well. -/
theorem LPA.set_timecourse_staggered_zero_offset
    (s : LPAState) (w : List ℚ) (pre : ℚ) (ks : List Int) (ch : Nat)
    (rc : Option (List Nat × List Nat)) (rows cols : List Nat)
    (hrc : LPA.resolveWells s rc = (rows, cols))
    (hlen1 : rows.length = cols.length) (hlen2 : rows.length = ks.length)
    (hnd : (rows.zip cols).Nodup)
    (hks : ∀ k ∈ ks, 0 ≤ k ∧ k.toNat ≤ w.length ∧
      k.toNat ≤ max s.n_steps w.length) :
    (LPA.set_timecourse_staggered s w pre ks ch rc).1 = none ∧
    ∀ i, i < rows.length → ks.getD i 0 = 0 →
      ∀ j, j < max s.n_steps w.length →
        (LPA.set_timecourse_staggered s w pre ks ch rc).2.intensity j
          (rows.getD i 0) (cols.getD i 0) ch = pre := by
  obtain ⟨L1, _, L3⟩ := LPA.set_timecourse_staggered_spec s w pre ks ch rc
    rows cols hrc hlen1 hlen2 hnd hks
  refine ⟨L1, ?_⟩
  intro i hi hk0 j hj
  rw [L3 i hi j, hk0]
  exact series_getD_pre pre _ _ j (by omega)

/-- A 1x1 plate with one time step, used to witness the staggered
timecourse claims. -/
def LPA.stagExample : LPAState :=
  ⟨1, 1, 1, 1, fun _ _ _ _ => 0, fun _ _ _ => 1, fun _ _ _ => 1⟩

/-- Witness for C5: waveform [5, 7] with offset 2 on the single well of
`LPA.stagExample` grows the buffer to 2 steps and writes the whole
waveform, with 7 at the final index. -/
theorem LPA.set_timecourse_staggered_series_witness :
    (LPA.set_timecourse_staggered LPA.stagExample [5, 7] 1 [2] 0
      (some ([0], [0]))).1 = none ∧
    (LPA.set_timecourse_staggered LPA.stagExample [5, 7] 1 [2] 0
      (some ([0], [0]))).2.n_steps = 2 ∧
    (LPA.set_timecourse_staggered LPA.stagExample [5, 7] 1 [2] 0
      (some ([0], [0]))).2.intensity 0 0 0 0 = 5 ∧
    (LPA.set_timecourse_staggered LPA.stagExample [5, 7] 1 [2] 0
      (some ([0], [0]))).2.intensity 1 0 0 0 = 7 := by
  have h := LPA.set_timecourse_staggered_series LPA.stagExample [5, 7] 1 [2] 0
    (some ([0], [0])) [0] [0] rfl rfl rfl (by decide) (by decide)
  have h0 := (h.2.2 0 (by decide)).2.1 0 (by decide) (by decide)
  have h1 := (h.2.2 0 (by decide)).2.2 (by decide)
  exact ⟨h.1, h.2.1, h0, h1⟩

/-- Witness for C9: offset 0 on the single well of `LPA.stagExample` with
waveform [5] leaves the well at the pre-induction value 3 at every step. -/
theorem LPA.set_timecourse_staggered_zero_offset_witness :
    (LPA.set_timecourse_staggered LPA.stagExample [5] 3 [0] 0
      (some ([0], [0]))).1 = none ∧
    (LPA.set_timecourse_staggered LPA.stagExample [5] 3 [0] 0
      (some ([0], [0]))).2.intensity 0 0 0 0 = 3 := by
  have h := LPA.set_timecourse_staggered_zero_offset LPA.stagExample [5] 3 [0]
    0 (some ([0], [0])) [0] [0] rfl rfl rfl (by decide) (by decide)
  exact ⟨h.1, h.2 0 (by decide) (by decide) 0 (by decide)⟩
